import Mathlib

/-
  Verification of the MLP trainer in `week2_mlp_practice.py`.

  Shallow embedding conventions:
  * numpy 2-D arrays are modelled by `Mat`: a row count, a column count and an
    entry function `ℕ → ℕ → ℝ`; entries outside the declared range are junk and
    every theorem quantifies only over in-range indices.
  * numpy 1-D arrays are modelled by `Vec` in the same style.
  * Machine floats are idealised as real numbers.
  * Fallible operations (the IndexError raised by `onehot` on an out-of-range
    label, the ValueError raised by the constructor, the ValueError raised by
    `fit` on mismatched sample counts, numpy broadcasting failures) are modelled
    with `Option` / explicit error strings.
  * The two Python random streams touched by `fit` (the `random` module stream,
    which `fit` reseeds via `seed(1)`, and the `np.random` global stream, which
    `np.random.uniform` actually consumes) are modelled explicitly in
    `RandState`.
-/

namespace MLP2

/-- A numpy 2-D array: row count, column count, and entries.  Entries outside
the declared shape are irrelevant junk. -/
structure Mat where
  rows : ℕ
  cols : ℕ
  entry : ℕ → ℕ → ℝ

/-- A numpy 1-D array: length and entries. -/
structure Vec where
  len : ℕ
  entry : ℕ → ℝ

/-- The all-zero 0x0 matrix, used as the default for out-of-range list access
(the Python code would raise an IndexError there; no theorem depends on such an
access). -/
def matZero : Mat := ⟨0, 0, fun _ _ => 0⟩

/-- The empty vector, default for out-of-range list access. -/
def vecZero : Vec := ⟨0, fun _ => 0⟩

/-- np.dot of two 2-D arrays.  numpy raises a ValueError when
`A.cols ≠ B.rows`; the embedding is total and theorems carry the shape
hypotheses instead. -/
def Mat.dot (A B : Mat) : Mat :=
  ⟨A.rows, B.cols, fun i j => ∑ k ∈ Finset.range A.cols, A.entry i k * B.entry k j⟩

/-- Transpose of a 2-D array (`A.T`). -/
def Mat.transpose (A : Mat) : Mat :=
  ⟨A.cols, A.rows, fun i j => A.entry j i⟩

/-- Broadcast addition of a 1-D array to every row of a 2-D array, as in
`X @ W + b` and `np.dot(...) + reg.T`. -/
def Mat.addRowVec (A : Mat) (v : Vec) : Mat :=
  ⟨A.rows, A.cols, fun i j => A.entry i j + v.entry j⟩

/-- Elementwise sum of two same-shaped 2-D arrays (`+=` on arrays). -/
def Mat.add (A B : Mat) : Mat :=
  ⟨A.rows, A.cols, fun i j => A.entry i j + B.entry i j⟩

/-- Scalar multiple of a 2-D array. -/
def Mat.smul (c : ℝ) (A : Mat) : Mat :=
  ⟨A.rows, A.cols, fun i j => c * A.entry i j⟩

/-- Elementwise map over a 2-D array (numpy ufunc application). -/
def Mat.map (f : ℝ → ℝ) (A : Mat) : Mat :=
  ⟨A.rows, A.cols, fun i j => f (A.entry i j)⟩

/-- np.sum(A, axis=0): the vector of column sums, one value per column. -/
def Mat.colSum (A : Mat) : Vec :=
  ⟨A.cols, fun j => ∑ i ∈ Finset.range A.rows, A.entry i j⟩

/-- np.sum(A): sum of all in-range entries of a 2-D array. -/
def Mat.total (A : Mat) : ℝ :=
  ∑ i ∈ Finset.range A.rows, ∑ j ∈ Finset.range A.cols, A.entry i j

/-- Elementwise sum of two same-length 1-D arrays. -/
def Vec.add (u v : Vec) : Vec :=
  ⟨u.len, fun j => u.entry j + v.entry j⟩

/-- Scalar multiple of a 1-D array. -/
def Vec.smul (c : ℝ) (v : Vec) : Vec :=
  ⟨v.len, fun j => c * v.entry j⟩

/-- Row slice `X[start : start + size]` of a 2-D array (numpy slicing clamps at
the end of the array, so the slice has `min size (rows - start)` rows). -/
def Mat.slice (A : Mat) (start size : ℕ) : Mat :=
  ⟨min size (A.rows - start), A.cols, fun i j => A.entry (start + i) j⟩

/-- One step of numpy shape broadcasting for a single dimension. -/
def bcDim (a b : ℕ) : Option ℕ :=
  if a = b then some a else if a = 1 then some b else if b = 1 then some a else none

/-- Elementwise product `A * B` of two 2-D arrays under numpy broadcasting;
`none` models the ValueError numpy raises on incompatible shapes. -/
def npMul (A B : Mat) : Option Mat :=
  match bcDim A.rows B.rows, bcDim A.cols B.cols with
  | some r, some c =>
      some ⟨r, c, fun i j =>
        A.entry (if A.rows = 1 then 0 else i) (if A.cols = 1 then 0 else j) *
        B.entry (if B.rows = 1 then 0 else i) (if B.cols = 1 then 0 else j)⟩
  | _, _ => none

/-- np.empty((r, c)): an uninitialised buffer.  The garbage contents are
modelled as zeros; the code never reads a buffer entry before writing it on the
paths any claim touches. -/
def matEmpty (r c : ℕ) : Mat := ⟨r, c, fun _ _ => 0⟩

/-! ### Activation library (module-level functions of the source) -/

/-- Source `sigmoid`: `1. / (1. + np.exp(-x))`, elementwise. -/
noncomputable def sigmoid (x : ℝ) : ℝ := 1 / (1 + Real.exp (-x))

/-- Source `dsigmoid`: `x * (1 - x)` (derivative expressed in terms of the
sigmoid output). -/
def dsigmoid (x : ℝ) : ℝ := x * (1 - x)

/-- Source `tanh`: `np.tanh(x)`. -/
noncomputable def tanh (x : ℝ) : ℝ := Real.tanh x

/-- Source `dtanh`: `1.0 - x ** 2` (derivative expressed in terms of the tanh
output). -/
def dtanh (x : ℝ) : ℝ := 1 - x ^ 2

/-- Source `softmax`: `(np.exp(X).T / np.sum(np.exp(X), axis=1)).T`, i.e.
entry (i, j) becomes `exp X[i,j] / Σ_k exp X[i,k]`. -/
noncomputable def softmax (X : Mat) : Mat :=
  ⟨X.rows, X.cols, fun i j =>
    Real.exp (X.entry i j) / ∑ k ∈ Finset.range X.cols, Real.exp (X.entry i k)⟩

/-! ### Label encoder -/

/-- Number of distinct values of a label vector, `len(np.unique(y))`. -/
def uniqueCount (y : List ℕ) : ℕ := y.dedup.length

/-- Source `onehot`.  `b = np.zeros((m, n))` with `n = len(np.unique(y))` and
`m = len(y)`, then `b[i, y[i]] = 1` for each row `i`; numpy raises an
IndexError (modelled as `none`) as soon as some `y[i]` is not below `n`. -/
def onehot (y : List ℕ) : Option Mat :=
  let n := uniqueCount y
  if y.all (fun v => v < n) then
    some ⟨y.length, n, fun i j => if y.getD i 0 = j then 1 else 0⟩
  else none

/-! ### Network configuration and constructor -/

/-- The constructor arguments of `MLP.__init__`. -/
structure MLPConfig where
  input_size : ℕ
  output_size : ℕ
  hidden_layer_size : List ℕ
  batch_size : ℕ
  activation : String
  output_layer : String
  loss : String
  lr : ℝ
  reg_lambda : ℝ
  momentum : ℝ
  verbose : ℕ

/-- The validation performed by `MLP.__init__`, in source order: the activation
kind is checked (ValueError otherwise), then `self.loss = loss` is stored
without any check, then the output-layer kind is checked (ValueError
otherwise).  `Except.ok` models a successfully constructed object. -/
def mlpInit (c : MLPConfig) : Except String MLPConfig :=
  if c.activation = "sigmoid" ∨ c.activation = "tanh" then
    if c.output_layer = "softmax" then Except.ok c
    else Except.error "Currently only Support softmax output_layer!"
  else Except.error "Currently only supoort 'sigmoid' or 'tanh' activations func!"

/-- The `self.activation_func` member chosen by the constructor. -/
noncomputable def activationFunc (c : MLPConfig) : ℝ → ℝ :=
  if c.activation = "sigmoid" then sigmoid else tanh

/-- The `self.activation_dfunc` member chosen by the constructor. -/
def activationDfunc (c : MLPConfig) : ℝ → ℝ :=
  if c.activation = "sigmoid" then dsigmoid else dtanh

/-- The mutable members of an `MLP` object: `self.weights`, `self.bias`,
`self.layers` (activation cache) and `self.deltas` (error cache). -/
structure MLPState where
  weights : List Mat
  bias : List Vec
  layers : List Mat
  deltas : List Mat

/-! ### Forward engine

In a state produced by `fit`, `self.weights` and `self.bias` have
`n_layers + 1` entries and `self.layers` has `n_layers + 2`, so the negative
indices `weights[-1]`, `layers[-2]`, `layers[-1]` of the source are positions
`n_layers`, `n_layers` and `n_layers + 1`; the embedding uses those positions.
-/

/-- The activation cached at `self.layers[i]` for `i ≤ n_layers` after
`forward(X)`: the input batch at index 0, and
`activation_func(layers[i] @ weights[i] + bias[i])` above it. -/
noncomputable def hiddenActs (c : MLPConfig) (ws : List Mat) (bs : List Vec) (X : Mat) :
    ℕ → Mat
  | 0 => X
  | i + 1 =>
      Mat.map (activationFunc c)
        (((hiddenActs c ws bs X i).dot (ws.getD i matZero)).addRowVec (bs.getD i vecZero))

/-- The value cached at `self.layers[-1]` after `forward(X)`:
`softmax(layers[-2] @ weights[-1] + bias[-1])`. -/
noncomputable def outputActivation (c : MLPConfig) (ws : List Mat) (bs : List Vec) (X : Mat) :
    Mat :=
  let n := c.hidden_layer_size.length
  softmax (((hiddenActs c ws bs X n).dot (ws.getD n matZero)).addRowVec (bs.getD n vecZero))

/-- The whole activation cache after `forward(X)`: `forward` overwrites every
one of the `n_layers + 2` positions of `self.layers`. -/
noncomputable def forwardLayers (c : MLPConfig) (ws : List Mat) (bs : List Vec) (X : Mat) :
    List Mat :=
  (List.range (c.hidden_layer_size.length + 1)).map (hiddenActs c ws bs X) ++
    [outputActivation c ws bs X]

/-- `MLP.forward`: returns the output probabilities and mutates the activation
cache as an observable side effect. -/
noncomputable def forward (c : MLPConfig) (s : MLPState) (X : Mat) : Mat × MLPState :=
  (outputActivation c s.weights s.bias X,
   { s with layers := forwardLayers c s.weights s.bias X })

/-! ### Backward engine -/

/-- The in-place fancy-indexed update `M[range(m), y] -= 1`: subtract 1 at
column `y[i]` of each row `i < m`.  numpy would raise an IndexError for an
out-of-range label; theorems about this operation carry in-range hypotheses. -/
def subOneAt (M : Mat) (m : ℕ) (y : List ℕ) : Mat :=
  ⟨M.rows, M.cols, fun i j =>
    if i < m ∧ y.getD i 0 = j then M.entry i j - 1 else M.entry i j⟩

/-- Elementwise product of two same-shaped 2-D arrays (the non-broadcasting
special case of `npMul`, used where the source multiplies same-shaped arrays).
-/
def Mat.mul (A B : Mat) : Mat :=
  ⟨A.rows, A.cols, fun i j => A.entry i j * B.entry i j⟩

/-- The delta loop of `MLP.backward`, counted downward from the output:
`deltaTop c ws ls d 0` is `self.deltas[-1]` and `deltaTop c ws ls d (j+1)` is
`self.deltas[n_layers - j - 1] =
(deltas[i+1] @ weights[i+1].T) * activation_dfunc(layers[i+1])` for
`i = n_layers - j - 1`. -/
def deltaTop (c : MLPConfig) (ws ls : List Mat) (dOut : Mat) : ℕ → Mat
  | 0 => dOut
  | j + 1 =>
      let n := c.hidden_layer_size.length
      ((deltaTop c ws ls dOut j).dot ((ws.getD (n - j) matZero).transpose)).mul
        (Mat.map (activationDfunc c) (ls.getD (n - j) matZero))

/-- `MLP.backward`.  When `loss == 'cross_entropy'` the statement
`self.deltas[-1] = self.layers[-1]` binds the output delta to the very array
cached as the output activation, and the fancy-indexed `-= 1` then mutates that
shared array, so the activation cache's last entry changes too (modelled by
`List.set`).  When the loss string is anything else, the output delta is
whatever stale buffer `self.deltas[-1]` held, and the cache is not touched.
The hidden-delta loop and the update loops follow the source line by line;
`reg.T` is a 1-D array, so transposing it is the identity, and
`np.sum(_, axis=0)` is `Mat.colSum`. -/
def backward (c : MLPConfig) (s : MLPState) (X : Mat) (y : List ℕ) : MLPState :=
  let n := c.hidden_layer_size.length
  let dOut :=
    if c.loss = "cross_entropy" then subOneAt (s.layers.getD (n + 1) matZero) X.rows y
    else s.deltas.getD n matZero
  let ls := if c.loss = "cross_entropy" then s.layers.set (n + 1) dOut else s.layers
  let ds := (List.range (n + 1)).map (fun i => deltaTop c s.weights ls dOut (n - i))
  let newW := (List.range (n + 1)).map (fun l =>
    (s.weights.getD l matZero).add (Mat.smul (-c.lr)
      ((((ls.getD l matZero).transpose).dot (ds.getD l matZero)).addRowVec
        (Vec.smul c.reg_lambda (Mat.colSum (s.weights.getD l matZero))))))
  let newB := (List.range (n + 1)).map (fun l =>
    (s.bias.getD l vecZero).add (Vec.smul (-c.lr) (Mat.colSum (ds.getD l matZero))))
  ⟨newW, newB, ls, ds⟩

/-! ### Loss evaluator -/

/-- `MLP.compute_loss`: runs `forward` over the full dataset (whose cache
mutation is retained in the returned state), builds the one-hot matrix, and
returns `-1/n_samples * np.sum(y_mat * np.log(probs)) +
reg_lambda/2 * Σ np.sum(W * W)`.  `none` models the IndexError escaping from
`onehot` or the ValueError from an impossible broadcast in
`y_mat * np.log(probs)`.  (For `n_samples = 0` Python would raise a
ZeroDivisionError; in the embedding division by zero gives 0 and no claim
touches that corner.) -/
noncomputable def compute_loss (c : MLPConfig) (s : MLPState) (X : Mat) (y : List ℕ) :
    Option ℝ × MLPState :=
  let n_samples := X.rows
  let (probs, s1) := forward c s X
  match onehot y with
  | none => (none, s1)
  | some y_mat =>
    match npMul y_mat (Mat.map Real.log probs) with
    | none => (none, s1)
    | some P =>
      let weight_sum := (s1.weights.map (fun W => Mat.total (W.mul W))).sum
      (some ((-1 : ℝ) / (n_samples : ℝ) * Mat.total P +
        c.reg_lambda / 2 * weight_sum), s1)

/-! ### Randomness model and training loop -/

/-- The process-wide random state visible to `fit`: the Python `random` module
stream (only its seed/state matters, it is never sampled by this program) and
the numpy global stream, modelled as a pre-realised sequence of uniform [0,1)
draws together with a cursor. -/
structure RandState where
  pyState : ℕ
  npStream : ℕ → ℝ
  npPos : ℕ

/-- `seed(k)` from the Python `random` module: reseeds the Python stream and
nothing else. -/
def pySeed (k : ℕ) (r : RandState) : RandState := { r with pyState := k }

/-- `np.random.uniform(lo, hi, size=(rows, cols))`: consumes `rows * cols`
draws from the numpy global stream in row-major order, each mapped affinely
from [0,1) onto [lo, hi). -/
def npUniformMat (lo hi : ℝ) (rows cols : ℕ) (r : RandState) : Mat × RandState :=
  (⟨rows, cols, fun i j => lo + (hi - lo) * r.npStream (r.npPos + (i * cols + j))⟩,
   { r with npPos := r.npPos + rows * cols })

/-- `np.random.uniform(lo, hi, size)` for a 1-D size. -/
def npUniformVec (lo hi : ℝ) (len : ℕ) (r : RandState) : Vec × RandState :=
  (⟨len, fun j => lo + (hi - lo) * r.npStream (r.npPos + j)⟩,
   { r with npPos := r.npPos + len })

/-- `MLP.get_weight_bound`.  For an activation string that is neither
supported, the Python function falls through its `if`/`elif` and raises an
UnboundLocalError on `return`; that branch is unreachable after construction
and is modelled as 0. -/
noncomputable def get_weight_bound (c : MLPConfig) (fan_in fan_out : ℕ) : ℝ :=
  if c.activation = "sigmoid" then Real.sqrt (2 / ((fan_in : ℝ) + (fan_out : ℝ)))
  else if c.activation = "tanh" then Real.sqrt (6 / ((fan_in : ℝ) + (fan_out : ℝ)))
  else 0

/-- The ordered `(fan_in, fan_out)` pairs for which `fit` draws a weight matrix
and a bias vector: `(n_features, hidden[0])`, then consecutive hidden pairs,
then `(hidden[-1], output_size)`.  For an empty hidden list the source raises
an IndexError on `hidden_layer_size[0]` (not modelled; no claim reaches it). -/
def layerPairs (c : MLPConfig) (n_features : ℕ) : List (ℕ × ℕ) :=
  match c.hidden_layer_size with
  | [] => []
  | h :: t =>
      ((n_features, h) :: (h :: t).zip t) ++
        [((h :: t).getLast (List.cons_ne_nil h t), c.output_size)]

/-- The weight/bias generation block of `fit`: for each layer pair, compute the
bound, draw the weight matrix, then draw the bias vector, threading the numpy
stream left to right. -/
noncomputable def initParams (c : MLPConfig) :
    List (ℕ × ℕ) → RandState → List Mat × List Vec × RandState
  | [], r => ([], [], r)
  | (fi, fo) :: rest, r =>
      let b := get_weight_bound c fi fo
      let (W, r1) := npUniformMat (-b) b fi fo r
      let (v, r2) := npUniformVec (-b) b fo r1
      let (Ws, vs, r3) := initParams c rest r2
      (W :: Ws, v :: vs, r3)

/-- Python `range(0, stop, step)` for `step > 0`: the multiples of `step` below
`stop`.  (`range` raises a ValueError for `step = 0`; the embedding returns
`[]` there and no claim touches that corner.) -/
def pyRange0 (stop step : ℕ) : List ℕ :=
  (List.range ((stop + step - 1) / step)).map (fun k => k * step)

/-- The mini-batch decomposition performed by the batch loop of `fit`: the
slices `data[batch : batch + batch_size]` for `batch` in
`range(0, n_samples, batch_size)` (exactly how `y_batch` is sliced; `X_batch`
is the `Mat.slice` analogue). -/
def batchesList {α : Type*} (xs : List α) (batch_size : ℕ) : List (List α) :=
  (pyRange0 xs.length batch_size).map (fun b => (xs.drop b).take batch_size)

/-- `sklearn.utils.shuffle(X, y, random_state=0)`: applies one joint
permutation that is a deterministic function of the sample count alone, because
`random_state=0` builds a fresh locally seeded generator on every call — no
process-wide stream is consumed and every call with the same length permutes
identically.  The exact Mersenne-Twister permutation is irrelevant to every
claim, so it is modelled as the identity permutation. -/
def sklearnShuffle (X : Mat) (y : List ℕ) : Mat × List ℕ := (X, y)

/-- The inner batch loop of one epoch of `fit`: for each batch start, slice
`X_batch` and `y_batch`, call `forward` (mutating the activation cache), then
`backward` (mutating parameters and both caches). -/
noncomputable def runBatches (c : MLPConfig) (n_samples : ℕ) (X : Mat) (y : List ℕ)
    (s : MLPState) : MLPState :=
  (pyRange0 n_samples c.batch_size).foldl (fun st b =>
    let Xb := X.slice b c.batch_size
    let yb := (y.drop b).take c.batch_size
    backward c (forward c st Xb).2 Xb yb) s

/-- The epoch loop of `fit`: optionally reshuffle `(X, y)` (the shuffled data
is carried into later epochs, as in the source where `X, y` are rebound), run
the batch loop, and on reporting epochs (`i % verbose == 0`) run
`compute_loss` and `score` over the full dataset — their only state effect is
that each calls `forward(X)`, leaving the activation cache rebuilt from the
full dataset.  (`verbose = 0` would raise a ZeroDivisionError in Python; not
modelled, no claim touches it.) -/
noncomputable def fitLoop (c : MLPConfig) (n_samples : ℕ) (shuffle_data : Bool) :
    ℕ → ℕ → Mat → List ℕ → MLPState → MLPState
  | _, 0, _, _, st => st
  | i, rem + 1, X, y, st =>
      let s1 := if shuffle_data then sklearnShuffle X y else (X, y)
      let st1 := runBatches c n_samples s1.1 s1.2 st
      let st2 :=
        if i % c.verbose = 0 then
          { st1 with layers := forwardLayers c st1.weights st1.bias s1.1 }
        else st1
      fitLoop c n_samples shuffle_data (i + 1) rem s1.1 s1.2 st2

/-- The pre-allocated activation buffers appended by `fit`: one
`np.empty((batch_size, width))` per layer including input and output. -/
def preallocLayers (c : MLPConfig) : List Mat :=
  matEmpty c.batch_size c.input_size ::
    (c.hidden_layer_size.map (fun h => matEmpty c.batch_size h) ++
      [matEmpty c.batch_size c.output_size])

/-- The pre-allocated delta buffers appended by `fit`: one per non-input
layer. -/
def preallocDeltas (c : MLPConfig) : List Mat :=
  c.hidden_layer_size.map (fun h => matEmpty c.batch_size h) ++
    [matEmpty c.batch_size c.output_size]

/-- `MLP.fit`.  First the sample counts of `X` and `y` are compared and a
ValueError ("Shapes of X and y don't fit!") is raised on mismatch — before
`seed(1)` runs, before any weight is drawn, and before any buffer is appended,
so the returned state is the caller's state unchanged.  Otherwise `seed(1)`
reseeds the Python `random` stream (which nothing ever samples), the
parameters are drawn from the numpy global stream and appended to the existing
`self.weights` / `self.bias` lists, the caches are appended, and the epoch
loop runs. -/
noncomputable def fit (c : MLPConfig) (s : MLPState) (r : RandState) (X : Mat)
    (y : List ℕ) (max_epochs : ℕ) (shuffle_data : Bool) :
    MLPState × RandState × Option String :=
  if y.length ≠ X.rows then (s, r, some "Shapes of X and y don't fit!")
  else
    let r1 := pySeed 1 r
    let p := initParams c (layerPairs c X.cols) r1
    let st0 : MLPState :=
      ⟨s.weights ++ p.1, s.bias ++ p.2.1,
       s.layers ++ preallocLayers c, s.deltas ++ preallocDeltas c⟩
    (fitLoop c X.rows shuffle_data 0 max_epochs X y st0, p.2.2, none)

/-! ### Helper lemmas -/

lemma getD_map_range {β : Type*} (f : ℕ → β) (n l : ℕ) (hl : l < n) (d : β) :
    (((List.range n).map f).getD l d) = f l := by
  rw [List.getD_eq_getElem _ _ (by simpa using hl)]
  simp

/-- If every label is below `C` and every class below `C` occurs, the source
`onehot` succeeds and produces the textbook indicator matrix with `C` columns.
-/
lemma onehot_classes_present (y : List ℕ) (C : ℕ)
    (h1 : ∀ v ∈ y, v < C) (h2 : ∀ j < C, j ∈ y) :
    onehot y = some ⟨y.length, C, fun i j => if y.getD i 0 = j then 1 else 0⟩ := by
  have hset : y.toFinset = Finset.range C := by
    ext a
    simp only [List.mem_toFinset, Finset.mem_range]
    exact ⟨fun ha => h1 a ha, fun ha => h2 a ha⟩
  have hcount : uniqueCount y = C := by
    have hnd : y.dedup.Nodup := y.nodup_dedup
    have hcard : y.dedup.toFinset.card = y.dedup.length := List.toFinset_card_of_nodup hnd
    have htf : y.dedup.toFinset = y.toFinset := by
      ext a
      simp [List.mem_dedup]
    rw [uniqueCount, ← hcard, htf, hset, Finset.card_range]
  unfold onehot
  rw [hcount]
  rw [if_pos]
  simp only [List.all_eq_true, decide_eq_true_eq]
  exact h1

/-! ### Claim C2 (corrected) -/

/-- C2 counterexample: for the label vector `[0, 2]`, whose values lie in
`[0, 3)` with `n_classes = 3`, the claim promises a (2, 3) one-hot matrix, but
the source computes `n = len(np.unique(y)) = 2` and then `b[1, 2] = 1` raises
an IndexError, so no encoding is produced at all. -/
theorem C2_counterexample : onehot [0, 2] = none := by
  rfl

/-- C2 amended: provided every class in `[0, n_classes)` actually occurs in
`y` (so that `len(np.unique(y)) = n_classes`), the one-hot encoding has shape
(n_samples, n_classes) and each row has a 1 exactly at the column equal to the
sample's label and 0 at every other column. -/
theorem C2_onehot_shape (y : List ℕ) (C : ℕ)
    (h1 : ∀ v ∈ y, v < C) (h2 : ∀ j < C, j ∈ y) :
    ∃ b, onehot y = some b ∧ b.rows = y.length ∧ b.cols = C ∧
      ∀ i < y.length,
        b.entry i (y.getD i 0) = 1 ∧
        ∀ j < C, j ≠ y.getD i 0 → b.entry i j = 0 := by
  refine ⟨_, onehot_classes_present y C h1 h2, rfl, rfl, ?_⟩
  intro i _
  refine ⟨by simp, ?_⟩
  intro j _ hj
  simp only [ite_eq_right_iff]
  intro hy
  exact absurd hy.symm hj

/-- C2 witness: the amended statement evaluated at the concrete labels
`[1, 0]` with two classes: the encoding exists, is 2 by 2, and row 0 is
(0, 1). -/
theorem C2_witness :
    (onehot [1, 0]).isSome = true ∧
    ((onehot [1, 0]).getD matZero).rows = 2 ∧
    ((onehot [1, 0]).getD matZero).cols = 2 ∧
    ((onehot [1, 0]).getD matZero).entry 0 1 = 1 ∧
    ((onehot [1, 0]).getD matZero).entry 0 0 = 0 := by
  obtain ⟨b, hb, hr, hc, hrow⟩ := C2_onehot_shape [1, 0] 2 (by decide) (by decide)
  rw [hb]
  exact ⟨rfl, hr, hc, (hrow 0 (by decide)).1,
    (hrow 0 (by decide)).2 0 (by decide) (by decide)⟩

/-! ### Claim C3 (corrected) -/

/-- A configuration with a loss string the spec calls unsupported
(`cross_entropy` is the only enumerated kind), but with supported activation
and output kinds. -/
def cfgBadLoss : MLPConfig :=
  ⟨64, 10, [128], 200, "sigmoid", "softmax", "mse", 1, 1, 1, 1⟩

/-- C3 counterexample: constructing the model with the unsupported loss kind
"mse" succeeds — `MLP.__init__` stores `self.loss = loss` without any check,
so no ConfigurationError is raised, contrary to the claim. -/
theorem C3_counterexample : mlpInit cfgBadLoss = Except.ok cfgBadLoss := by
  rfl

/-- C3 amended: construction validates only the activation kind and the output
kind; with those supported, construction succeeds for every loss string, and
the unsupported loss is silently stored (`backward` later just skips its
output-delta branch). -/
theorem C3_loss_never_validated (c : MLPConfig)
    (hact : c.activation = "sigmoid" ∨ c.activation = "tanh")
    (hout : c.output_layer = "softmax") :
    mlpInit c = Except.ok c := by
  unfold mlpInit
  rw [if_pos hact, if_pos hout]

/-- C3 witness: the amended statement at the concrete configuration whose loss
kind is the unsupported "mse". -/
theorem C3_witness : mlpInit cfgBadLoss = Except.ok cfgBadLoss :=
  C3_loss_never_validated cfgBadLoss (Or.inl rfl) rfl

/-! ### Claim C7 (confirmed) -/

/-- C7: when the sample counts of `X` and `y` differ, `fit` fails with the
shape error and returns with the model's weights, biases and caches exactly as
they were — the check precedes `seed(1)`, parameter drawing and buffer
allocation, and even the random state is untouched. -/
theorem C7_fit_shape_mismatch (c : MLPConfig) (s : MLPState) (r : RandState)
    (X : Mat) (y : List ℕ) (max_epochs : ℕ) (shuffle_data : Bool)
    (h : y.length ≠ X.rows) :
    fit c s r X y max_epochs shuffle_data = (s, r, some "Shapes of X and y don't fit!") := by
  unfold fit
  rw [if_pos h]

/-- C7 witness: a one-sample label vector against an empty data matrix leaves
a fresh model untouched and reports the shape error. -/
theorem C7_witness :
    fit cfgBadLoss ⟨[], [], [], []⟩ ⟨0, fun _ => 0, 0⟩ matZero [0] 3 true =
      (⟨[], [], [], []⟩, ⟨0, fun _ => 0, 0⟩, some "Shapes of X and y don't fit!") :=
  C7_fit_shape_mismatch cfgBadLoss ⟨[], [], [], []⟩ ⟨0, fun _ => 0, 0⟩ matZero [0] 3 true
    (by decide)

/-! ### Concrete fixtures used by witnesses -/

/-- A minimal valid configuration: 1 input, 1 class, one hidden layer of width
1, batch size 1, sigmoid activation, softmax output, cross-entropy loss. -/
def cfg1 : MLPConfig :=
  ⟨1, 1, [1], 1, "sigmoid", "softmax", "cross_entropy", 1, 1, 1, 1⟩

/-- A state shaped as `fit` would shape it for `cfg1`: two weight matrices,
two bias vectors, three activation buffers, two delta buffers. -/
def st1 : MLPState :=
  ⟨[matEmpty 1 1, matEmpty 1 1], [vecZero, vecZero],
   [matEmpty 1 1, matEmpty 1 1, matEmpty 1 1], [matEmpty 1 1, matEmpty 1 1]⟩

/-- A one-sample, one-feature input batch. -/
def X1 : Mat := matEmpty 1 1

/-- A valid configuration with three output classes: 1 input, 3 classes, one
hidden layer of width 1. -/
def cfg3 : MLPConfig :=
  ⟨1, 3, [1], 2, "sigmoid", "softmax", "cross_entropy", 1, 1, 1, 1⟩

/-- A state shaped as `fit` would shape it for `cfg3` with two samples: the
last weight matrix has 3 columns, matching the 3 output classes. -/
def st3 : MLPState :=
  ⟨[matEmpty 1 1, matEmpty 1 3], [vecZero, ⟨3, fun _ => 0⟩],
   [matEmpty 2 1, matEmpty 2 1, matEmpty 2 3], [matEmpty 2 1, matEmpty 2 3]⟩

/-- A two-sample, one-feature input batch. -/
def X3 : Mat := matEmpty 2 1

/-! ### Claim C1 (confirmed) -/

/-- C1: for every layer `l`, `backward` updates
`W_l ← W_l - lr * (activation_l^T @ delta_l + reg_lambda * column_sums(W_l))`
(the regularization term has one value per output column `j`, the same for
every row `i`, i.e. broadcast across rows) and
`b_l ← b_l - lr * column_sums(delta_l)`; both gradients are plain sums over
the batch rows, with no batch-size division. -/
theorem C1_backward_update (c : MLPConfig) (s : MLPState) (X : Mat) (y : List ℕ)
    (l : ℕ) (hl : l < c.hidden_layer_size.length + 1) :
    (∀ i j, ((backward c s X y).weights.getD l matZero).entry i j =
        (s.weights.getD l matZero).entry i j -
          c.lr * ((∑ t ∈ Finset.range ((backward c s X y).layers.getD l matZero).rows,
              ((backward c s X y).layers.getD l matZero).entry t i *
                ((backward c s X y).deltas.getD l matZero).entry t j) +
            c.reg_lambda * ∑ r ∈ Finset.range (s.weights.getD l matZero).rows,
              (s.weights.getD l matZero).entry r j)) ∧
    (∀ j, ((backward c s X y).bias.getD l vecZero).entry j =
        (s.bias.getD l vecZero).entry j -
          c.lr * ∑ t ∈ Finset.range ((backward c s X y).deltas.getD l matZero).rows,
            ((backward c s X y).deltas.getD l matZero).entry t j) := by
  simp only [backward, getD_map_range _ _ _ hl]
  constructor
  · intro i j
    simp only [Mat.add, Mat.smul, Mat.addRowVec, Mat.dot, Mat.transpose, Mat.colSum,
      Vec.smul]
    ring
  · intro j
    simp only [Vec.add, Vec.smul, Mat.colSum]
    ring

/-- C1 witness: the weight-update formula instantiated for the first layer of
the concrete one-hidden-layer model. -/
theorem C1_witness :
    ((backward cfg1 st1 X1 [0]).weights.getD 0 matZero).entry 0 0 =
      (st1.weights.getD 0 matZero).entry 0 0 -
        cfg1.lr * ((∑ t ∈ Finset.range ((backward cfg1 st1 X1 [0]).layers.getD 0 matZero).rows,
            ((backward cfg1 st1 X1 [0]).layers.getD 0 matZero).entry t 0 *
              ((backward cfg1 st1 X1 [0]).deltas.getD 0 matZero).entry t 0) +
          cfg1.reg_lambda * ∑ r ∈ Finset.range (st1.weights.getD 0 matZero).rows,
            (st1.weights.getD 0 matZero).entry r 0) :=
  (C1_backward_update cfg1 st1 X1 [0] 0 (by decide)).1 0 0

/-! ### Claim C4 (confirmed) -/

/-- C4: with cross-entropy loss, the output-layer delta computed by `backward`
has the shape of the cached softmax output and equals, entry by entry, the
softmax output probabilities minus the one-hot indicator of the true labels —
equivalently the softmax output with 1 subtracted at each sample's true-class
column. -/
theorem C4_output_delta (c : MLPConfig) (s : MLPState) (X : Mat) (y : List ℕ)
    (hloss : c.loss = "cross_entropy")
    (hrows : (s.layers.getD (c.hidden_layer_size.length + 1) matZero).rows = X.rows) :
    ((backward c s X y).deltas.getD c.hidden_layer_size.length matZero).rows =
      (s.layers.getD (c.hidden_layer_size.length + 1) matZero).rows ∧
    ((backward c s X y).deltas.getD c.hidden_layer_size.length matZero).cols =
      (s.layers.getD (c.hidden_layer_size.length + 1) matZero).cols ∧
    ∀ i < (s.layers.getD (c.hidden_layer_size.length + 1) matZero).rows,
      ∀ j, ((backward c s X y).deltas.getD c.hidden_layer_size.length matZero).entry i j =
        (s.layers.getD (c.hidden_layer_size.length + 1) matZero).entry i j -
          (if y.getD i 0 = j then 1 else 0) := by
  simp only [backward, hloss, if_pos,
    getD_map_range _ _ _ (Nat.lt_succ_self c.hidden_layer_size.length),
    Nat.sub_self, deltaTop, subOneAt]
  refine ⟨trivial, trivial, ?_⟩
  intro i hi j
  rw [hrows] at hi
  by_cases hy : y.getD i 0 = j
  · rw [if_pos ⟨hi, hy⟩, if_pos hy]
  · rw [if_neg (fun h => hy h.2), if_neg hy]
    ring

/-- C4 witness: entry (0, 0) of the output delta of the concrete
one-hidden-layer model equals the cached output probability minus the one-hot
indicator there. -/
theorem C4_witness :
    ((backward cfg1 st1 X1 [0]).deltas.getD cfg1.hidden_layer_size.length matZero).entry 0 0 =
      (st1.layers.getD (cfg1.hidden_layer_size.length + 1) matZero).entry 0 0 -
        (if [0].getD 0 0 = 0 then 1 else 0) :=
  (C4_output_delta cfg1 st1 X1 [0] rfl rfl).2.2 0 (by decide) 0

/-! ### Claim C10 (confirmed) -/

/-- C10: `self.deltas[-1] = self.layers[-1]` binds the output delta to the very
array cached as the output activation, so after `backward` returns the
activation cache's last entry is the same array as the output delta — it no
longer holds the softmax probabilities: at each sample's true-class column it
holds the probability minus 1, and a caller reading the cache between
`backward` and the next `forward` observes these mutated values. -/
theorem C10_cache_mutated (c : MLPConfig) (s : MLPState) (X : Mat) (y : List ℕ)
    (hloss : c.loss = "cross_entropy")
    (hlen : s.layers.length = c.hidden_layer_size.length + 2)
    (hrows : (s.layers.getD (c.hidden_layer_size.length + 1) matZero).rows = X.rows) :
    (backward c s X y).layers.getD (c.hidden_layer_size.length + 1) matZero =
      (backward c s X y).deltas.getD c.hidden_layer_size.length matZero ∧
    ∀ i < (s.layers.getD (c.hidden_layer_size.length + 1) matZero).rows,
      ((backward c s X y).layers.getD (c.hidden_layer_size.length + 1) matZero).entry
          i (y.getD i 0) =
        (s.layers.getD (c.hidden_layer_size.length + 1) matZero).entry i (y.getD i 0) - 1 := by
  have hset : ∀ d : Mat,
      (s.layers.set (c.hidden_layer_size.length + 1) d).getD
        (c.hidden_layer_size.length + 1) matZero = d := by
    intro d
    rw [List.getD_eq_getElem _ _ (by simp [hlen])]
    exact List.getElem_set_self _
  simp only [backward, hloss, if_pos,
    getD_map_range _ _ _ (Nat.lt_succ_self c.hidden_layer_size.length),
    Nat.sub_self, deltaTop, hset]
  refine ⟨trivial, ?_⟩
  intro i hi
  rw [hrows] at hi
  simp only [subOneAt]
  rw [if_pos ⟨hi, trivial⟩]

/-- C10 witness: after `backward` on the concrete model, the cache's last entry
is the output delta itself and its row-0 true-class entry is the cached
probability minus 1. -/
theorem C10_witness :
    (backward cfg1 st1 X1 [0]).layers.getD (cfg1.hidden_layer_size.length + 1) matZero =
      (backward cfg1 st1 X1 [0]).deltas.getD cfg1.hidden_layer_size.length matZero ∧
    ((backward cfg1 st1 X1 [0]).layers.getD (cfg1.hidden_layer_size.length + 1) matZero).entry
        0 ([0].getD 0 0) =
      (st1.layers.getD (cfg1.hidden_layer_size.length + 1) matZero).entry 0 ([0].getD 0 0) - 1 :=
  ⟨(C10_cache_mutated cfg1 st1 X1 [0] rfl rfl rfl).1,
   (C10_cache_mutated cfg1 st1 X1 [0] rfl rfl rfl).2 0 (by decide)⟩

/-! ### Claim C6 (confirmed) -/

/-- Row property of the source softmax: on any matrix with at least one
column, every row of `softmax` sums to exactly 1 and each entry lies in
[0, 1]. -/
lemma softmax_rows_sum_one (Z : Mat) (hc : 0 < Z.cols) (i : ℕ) :
    (∑ j ∈ Finset.range Z.cols, (softmax Z).entry i j) = 1 ∧
    ∀ j < Z.cols, 0 ≤ (softmax Z).entry i j ∧ (softmax Z).entry i j ≤ 1 := by
  have hS : 0 < ∑ k ∈ Finset.range Z.cols, Real.exp (Z.entry i k) :=
    Finset.sum_pos (fun k _ => Real.exp_pos _) (Finset.nonempty_range_iff.mpr hc.ne')
  constructor
  · simp only [softmax]
    rw [← Finset.sum_div, div_self hS.ne']
  · intro j hj
    simp only [softmax]
    refine ⟨div_nonneg (Real.exp_pos _).le hS.le, ?_⟩
    rw [div_le_one hS]
    exact Finset.single_le_sum (f := fun k => Real.exp (Z.entry i k))
      (fun k _ => (Real.exp_pos _).le) (Finset.mem_range.mpr hj)

/-- C6: for every input batch, every row of the output of `forward` sums to 1
(within 1e-9 — in exact arithmetic it is exactly 1) and every entry lies in
[0, 1], because the output layer is the row-wise softmax
`exp(row_k) / Σ_j exp(row_j)`. -/
theorem C6_forward_softmax (c : MLPConfig) (s : MLPState) (X : Mat)
    (hc : 0 < (forward c s X).1.cols) :
    ∀ i < (forward c s X).1.rows,
      |(∑ j ∈ Finset.range (forward c s X).1.cols, (forward c s X).1.entry i j) - 1| ≤ 1e-9 ∧
      ∀ j < (forward c s X).1.cols,
        0 ≤ (forward c s X).1.entry i j ∧ (forward c s X).1.entry i j ≤ 1 := by
  intro i _
  have h := softmax_rows_sum_one
    (((hiddenActs c s.weights s.bias X c.hidden_layer_size.length).dot
        (s.weights.getD c.hidden_layer_size.length matZero)).addRowVec
      (s.bias.getD c.hidden_layer_size.length vecZero)) hc i
  refine ⟨?_, h.2⟩
  have h1 : (∑ j ∈ Finset.range (forward c s X).1.cols, (forward c s X).1.entry i j) = 1 := h.1
  rw [h1]
  norm_num

/-- C6 witness: the concrete one-hidden-layer model's forward output — row 0
sums to 1 within 1e-9 and its entry lies in [0, 1]. -/
theorem C6_witness :
    |(∑ j ∈ Finset.range (forward cfg1 st1 X1).1.cols, (forward cfg1 st1 X1).1.entry 0 j) - 1|
        ≤ 1e-9 ∧
    (0 ≤ (forward cfg1 st1 X1).1.entry 0 0 ∧ (forward cfg1 st1 X1).1.entry 0 0 ≤ 1) :=
  ⟨(C6_forward_softmax cfg1 st1 X1 (by decide) 0 (by decide)).1,
   (C6_forward_softmax cfg1 st1 X1 (by decide) 0 (by decide)).2 0 (by decide)⟩

/-! ### Claim C8 (confirmed) -/

lemma pyRange0_zero (step : ℕ) : pyRange0 0 step = [] := by
  unfold pyRange0
  rcases Nat.eq_zero_or_pos step with h | h
  · simp [h]
  · rw [Nat.zero_add, Nat.div_eq_of_lt (by omega)]
    rfl

lemma pyRange0_succ (stop step : ℕ) (hstep : 0 < step) (hstop : 0 < stop) :
    pyRange0 stop step = 0 :: (pyRange0 (stop - step) step).map (· + step) := by
  have hcount : (stop + step - 1) / step = (stop - step + step - 1) / step + 1 := by
    rcases le_or_lt stop step with h | h
    · have h1 : stop - step = 0 := by omega
      have h2 : stop + step - 1 = (stop - 1) + step := by omega
      rw [h1, h2, Nat.add_div_right _ hstep, Nat.div_eq_of_lt (by omega),
        Nat.zero_add, Nat.div_eq_of_lt (by omega)]
    · have h2 : stop + step - 1 = (stop - step + step - 1) + step := by omega
      rw [h2, Nat.add_div_right _ hstep]
  simp [pyRange0, hcount, List.range_succ_eq_map, List.map_map, Function.comp_def,
    Nat.succ_mul]

lemma batchesList_nil {α : Type*} (bs : ℕ) : batchesList ([] : List α) bs = [] := by
  simp [batchesList, pyRange0_zero]

lemma batchesList_cons {α : Type*} {xs : List α} {bs : ℕ} (hbs : 0 < bs) (hx : xs ≠ []) :
    batchesList xs bs = xs.take bs :: batchesList (xs.drop bs) bs := by
  unfold batchesList
  rw [pyRange0_succ xs.length bs hbs (List.length_pos.mpr hx)]
  simp only [List.map_cons, List.map_map, List.drop_zero, List.length_drop,
    List.cons.injEq, true_and]
  apply List.map_congr_left
  intro a _
  simp only [Function.comp_apply, List.drop_drop]
  rw [Nat.add_comm]

lemma batchesList_join {α : Type*} (bs : ℕ) (hbs : 0 < bs) (xs : List α) :
    (batchesList xs bs).flatten = xs := by
  suffices h : ∀ (n : ℕ) (xs : List α), xs.length ≤ n → (batchesList xs bs).flatten = xs from
    h xs.length xs le_rfl
  intro n
  induction n with
  | zero =>
    intro xs hx
    have hnil : xs = [] := List.length_eq_zero.mp (Nat.le_zero.mp hx)
    subst hnil
    simp [batchesList_nil]
  | succ n ih =>
    intro xs hx
    rcases eq_or_ne xs [] with h | h
    · subst h
      simp [batchesList_nil]
    · rw [batchesList_cons hbs h, List.flatten_cons,
        ih (xs.drop bs) (by rw [List.length_drop]; omega)]
      exact List.take_append_drop bs xs

lemma batchesList_ne_nil_iff {α : Type*} {xs : List α} {bs : ℕ} (hbs : 0 < bs) :
    batchesList xs bs ≠ [] ↔ xs ≠ [] := by
  constructor
  · intro hb hx
    subst hx
    exact hb (batchesList_nil bs)
  · intro hx
    rw [batchesList_cons hbs hx]
    exact List.cons_ne_nil _ _

lemma batchesList_full_size {α : Type*} (bs : ℕ) (hbs : 0 < bs) (xs : List α) (i : ℕ)
    (hi : i + 1 < (batchesList xs bs).length) :
    ((batchesList xs bs).getD i []).length = bs := by
  suffices h : ∀ (n : ℕ) (xs : List α) (i : ℕ), xs.length ≤ n →
      i + 1 < (batchesList xs bs).length → ((batchesList xs bs).getD i []).length = bs from
    h xs.length xs i le_rfl hi
  intro n
  induction n with
  | zero =>
    intro xs i hx hi
    have hnil : xs = [] := List.length_eq_zero.mp (Nat.le_zero.mp hx)
    subst hnil
    rw [batchesList_nil] at hi
    simp at hi
  | succ n ih =>
    intro xs i hx hi
    rcases eq_or_ne xs [] with h | h
    · subst h
      rw [batchesList_nil] at hi
      simp at hi
    · rw [batchesList_cons hbs h] at hi ⊢
      match i with
      | 0 =>
        have htail : batchesList (xs.drop bs) bs ≠ [] := by
          simp only [List.length_cons] at hi
          exact List.ne_nil_of_length_pos (by omega)
        have hdrop : xs.drop bs ≠ [] := (batchesList_ne_nil_iff hbs).mp htail
        have hlen : bs < xs.length := by
          have h2 := List.length_pos.mpr hdrop
          rw [List.length_drop] at h2
          omega
        simp [List.length_take, Nat.min_eq_left hlen.le]
      | k + 1 =>
        rw [List.getD_cons_succ]
        refine ih (xs.drop bs) k (by rw [List.length_drop]; omega) ?_
        simp only [List.length_cons] at hi
        omega

lemma batchesList_mem_le {α : Type*} (bs : ℕ) (hbs : 0 < bs) (xs : List α) :
    ∀ B ∈ batchesList xs bs, B.length ≤ bs ∧ B ≠ [] := by
  suffices h : ∀ (n : ℕ) (xs : List α), xs.length ≤ n →
      ∀ B ∈ batchesList xs bs, B.length ≤ bs ∧ B ≠ [] from h xs.length xs le_rfl
  intro n
  induction n with
  | zero =>
    intro xs hx B hB
    have hnil : xs = [] := List.length_eq_zero.mp (Nat.le_zero.mp hx)
    subst hnil
    rw [batchesList_nil] at hB
    simp at hB
  | succ n ih =>
    intro xs hx B hB
    rcases eq_or_ne xs [] with h | h
    · subst h
      rw [batchesList_nil] at hB
      simp at hB
    · rw [batchesList_cons hbs h] at hB
      rcases List.mem_cons.mp hB with h1 | h1
      · subst h1
        refine ⟨by rw [List.length_take]; exact Nat.min_le_left bs xs.length, List.ne_nil_of_length_pos ?_⟩
        rw [List.length_take]
        exact lt_min hbs (List.length_pos.mpr h)
      · exact ih (xs.drop bs) (by rw [List.length_drop]; omega) B h1

/-- C8: with a positive batch size, the slices taken by the batch loop of
`fit` — `data[batch : batch + batch_size]` for `batch` in
`range(0, n_samples, batch_size)` — concatenate back to the dataset in order
(each sample in exactly one contiguous batch), every batch except possibly the
last has exactly the configured size, every batch is nonempty and no longer
than the configured size, and a batch size at least the dataset size collapses
the epoch to the single batch `[xs]`, with no error. -/
theorem C8_batches {α : Type*} (xs : List α) (bs : ℕ) (hbs : 0 < bs) :
    (batchesList xs bs).flatten = xs ∧
    (∀ i, i + 1 < (batchesList xs bs).length → ((batchesList xs bs).getD i []).length = bs) ∧
    (∀ B ∈ batchesList xs bs, B.length ≤ bs ∧ B ≠ []) ∧
    (xs ≠ [] → xs.length ≤ bs → batchesList xs bs = [xs]) := by
  refine ⟨batchesList_join bs hbs xs, fun i hi => batchesList_full_size bs hbs xs i hi,
    batchesList_mem_le bs hbs xs, ?_⟩
  intro hx hlen
  rw [batchesList_cons hbs hx, List.take_of_length_le hlen,
    List.drop_eq_nil_of_le hlen, batchesList_nil]

/-- C8 witness: five samples with batch size 2 partition into (2, 2, 1) and
rejoin to the dataset; three samples with batch size 5 collapse to one batch.
-/
theorem C8_witness :
    (batchesList [0, 1, 2, 3, 4] 2).flatten = [0, 1, 2, 3, 4] ∧
    ((batchesList [0, 1, 2, 3, 4] 2).getD 0 []).length = 2 ∧
    batchesList [0, 1, 2] 5 = [[0, 1, 2]] :=
  ⟨(C8_batches [0, 1, 2, 3, 4] 2 (by decide)).1,
   (C8_batches [0, 1, 2, 3, 4] 2 (by decide)).2.1 0 (by decide),
   (C8_batches [0, 1, 2] 5 (by decide)).2.2.2 (by decide) (by decide)⟩

/-! ### Claim C5 (corrected) -/

/-- Every hidden activation has as many rows as the input batch. -/
lemma hiddenActs_rows (c : MLPConfig) (ws : List Mat) (bs : List Vec) (X : Mat) :
    ∀ i, (hiddenActs c ws bs X i).rows = X.rows := by
  intro i
  induction i with
  | zero => rfl
  | succ i ih =>
    simp only [hiddenActs, Mat.map, Mat.addRowVec, Mat.dot]
    exact ih

/-- The forward output has as many rows as the input batch. -/
lemma outputActivation_rows (c : MLPConfig) (ws : List Mat) (bs : List Vec) (X : Mat) :
    (outputActivation c ws bs X).rows = X.rows := by
  simp only [outputActivation, softmax, Mat.addRowVec, Mat.dot]
  exact hiddenActs_rows c ws bs X _

/-- The forward output has as many columns as the last weight matrix. -/
lemma outputActivation_cols (c : MLPConfig) (ws : List Mat) (bs : List Vec) (X : Mat) :
    (outputActivation c ws bs X).cols =
      (ws.getD c.hidden_layer_size.length matZero).cols := rfl

/-- On same-shaped arrays, numpy broadcasting multiplication succeeds and is
the entrywise product on the common shape. -/
lemma npMul_same_shape (A B : Mat) (hr : A.rows = B.rows) (hc : A.cols = B.cols) :
    ∃ P, npMul A B = some P ∧ P.rows = A.rows ∧ P.cols = A.cols ∧
      ∀ i < A.rows, ∀ j < A.cols, P.entry i j = A.entry i j * B.entry i j := by
  have h1 : bcDim A.rows B.rows = some A.rows := by rw [bcDim, if_pos hr]
  have h2 : bcDim A.cols B.cols = some A.cols := by rw [bcDim, if_pos hc]
  refine ⟨⟨A.rows, A.cols, fun i j =>
      A.entry (if A.rows = 1 then 0 else i) (if A.cols = 1 then 0 else j) *
      B.entry (if B.rows = 1 then 0 else i) (if B.cols = 1 then 0 else j)⟩,
    by rw [npMul, h1, h2], rfl, rfl, ?_⟩
  intro i hi j hj
  have e1 : (if A.rows = 1 then 0 else i) = i := by
    rcases eq_or_ne A.rows 1 with h | h
    · rw [if_pos h]; omega
    · rw [if_neg h]
  have e2 : (if A.cols = 1 then 0 else j) = j := by
    rcases eq_or_ne A.cols 1 with h | h
    · rw [if_pos h]; omega
    · rw [if_neg h]
  have e3 : (if B.rows = 1 then 0 else i) = i := by
    rcases eq_or_ne B.rows 1 with h | h
    · rw [if_pos h]; omega
    · rw [if_neg h]
  have e4 : (if B.cols = 1 then 0 else j) = j := by
    rcases eq_or_ne B.cols 1 with h | h
    · rw [if_pos h]; omega
    · rw [if_neg h]
  simp only [e1, e2, e3, e4]

/-- C5 counterexample: on the 3-class model `cfg3` (output_size = 3, last
weight matrix with 3 columns), the two-sample dataset labelled `[0, 2]` has
integer labels inside `[0, n_classes) = [0, 3)`, so it lies in the original
claim's domain; yet `compute_loss` does not return the claimed value at all —
the `onehot` call raises an IndexError (`len(np.unique(y)) = 2` but label 2
indexes column 2), so no loss is produced. -/
theorem C5_counterexample : (compute_loss cfg3 st3 X3 [0, 2]).1 = none := by
  rfl

/-- C5 amended: provided every class in `[0, n_classes)` occurs in `y` (so the
source one-hot matrix has `n_classes` columns) and the shapes agree,
`compute_loss` returns the negative mean over samples of the per-class sum of
`onehot * log(prob)` — `prob` being the forward output over the full dataset —
plus `reg_lambda / 2` times the sum of squares of all weight entries. -/
theorem C5_compute_loss (c : MLPConfig) (s : MLPState) (X : Mat) (y : List ℕ)
    (h1 : ∀ v ∈ y, v < c.output_size)
    (h2 : ∀ j < c.output_size, j ∈ y)
    (hlen : y.length = X.rows)
    (hW : (s.weights.getD c.hidden_layer_size.length matZero).cols = c.output_size) :
    (compute_loss c s X y).1 = some (
      (-1 : ℝ) / (X.rows : ℝ) *
        ∑ i ∈ Finset.range X.rows, ∑ k ∈ Finset.range c.output_size,
          (if y.getD i 0 = k then (1 : ℝ) else 0) *
            Real.log (((forward c s X).1).entry i k) +
      c.reg_lambda / 2 *
        (s.weights.map (fun W =>
          ∑ i ∈ Finset.range W.rows, ∑ j ∈ Finset.range W.cols,
            W.entry i j * W.entry i j)).sum) := by
  have honehot := onehot_classes_present y c.output_size h1 h2
  have hrows : (outputActivation c s.weights s.bias X).rows = X.rows :=
    outputActivation_rows c s.weights s.bias X
  obtain ⟨P, hP, hPr, hPc, hPe⟩ := npMul_same_shape
    ⟨y.length, c.output_size, fun i j => if y.getD i 0 = j then 1 else 0⟩
    (Mat.map Real.log (outputActivation c s.weights s.bias X))
    (by simp only [Mat.map]; rw [hrows]; exact hlen)
    (by simp only [Mat.map]; rw [outputActivation_cols, hW])
  have htot : Mat.total P =
      ∑ i ∈ Finset.range X.rows, ∑ k ∈ Finset.range c.output_size,
        (if y.getD i 0 = k then (1 : ℝ) else 0) *
          Real.log ((outputActivation c s.weights s.bias X).entry i k) := by
    rw [Mat.total, hPr, hPc]
    show (∑ i ∈ Finset.range y.length, ∑ j ∈ Finset.range c.output_size, P.entry i j) = _
    rw [hlen]
    refine Finset.sum_congr rfl ?_
    intro i hi
    refine Finset.sum_congr rfl ?_
    intro k hk
    rw [hPe i (by simpa [hlen] using hi) k (by simpa using hk)]
    rfl
  simp only [compute_loss, forward]
  rw [honehot]
  simp only [hP, Option.some.injEq]
  rw [htot]
  rfl

/-- C5 witness: the amended statement at the concrete one-sample, one-class
dataset where the single class 0 occurs. -/
theorem C5_witness :
    (compute_loss cfg1 st1 X1 [0]).1 = some (
      (-1 : ℝ) / (X1.rows : ℝ) *
        ∑ i ∈ Finset.range X1.rows, ∑ k ∈ Finset.range cfg1.output_size,
          (if [0].getD i 0 = k then (1 : ℝ) else 0) *
            Real.log (((forward cfg1 st1 X1).1).entry i k) +
      cfg1.reg_lambda / 2 *
        (st1.weights.map (fun W =>
          ∑ i ∈ Finset.range W.rows, ∑ j ∈ Finset.range W.cols,
            W.entry i j * W.entry i j)).sum) :=
  C5_compute_loss cfg1 st1 X1 [0] (by decide) (by decide) rfl rfl

/-! ### Claim C9 (corrected) -/

/-- A fresh model object (weights, bias and caches as `__init__` leaves them:
empty lists). -/
def st0 : MLPState := ⟨[], [], [], []⟩

/-- A random state whose numpy global stream constantly realises 0. -/
def rngA : RandState := ⟨0, fun _ => 0, 0⟩

/-- A random state with the same Python-stream state as `rngA` but whose numpy
global stream constantly realises 1. -/
def rngB : RandState := ⟨0, fun _ => 1, 0⟩

/-- C9 counterexample: two runs of `fit` from identical Python random-module
states (the stream `fit` itself reseeds via `seed(1)`) but different numpy
global streams produce different trained parameters — already at epoch count 0
the first drawn weight entry differs — so the randomness `fit` consumes is not
governed by the source it seeds. -/
theorem C9_counterexample :
    ((fit cfg1 st0 rngA X1 [0] 0 false).1.weights.getD 0 matZero).entry 0 0 ≠
      ((fit cfg1 st0 rngB X1 [0] 0 false).1.weights.getD 0 matZero).entry 0 0 := by
  simp only [fit, pySeed, initParams, layerPairs, npUniformMat, npUniformVec,
    get_weight_bound, fitLoop, cfg1, st0, rngA, rngB, X1, matEmpty, matZero]
  norm_num [Real.sqrt_eq_one]

/-- C9 amended: `fit` reseeds only the Python random-module stream (via
`seed(1)`) while its sampling consumes the numpy global stream, and the
fixed-seed shuffle consumes no process-wide stream at all; consequently the
trained parameters are completely independent of the Python stream's state —
reproducibility is controlled solely by the numpy stream, which `fit` never
seeds. -/
theorem C9_fit_ignores_seeded_stream (c : MLPConfig) (s : MLPState) (X : Mat)
    (y : List ℕ) (max_epochs : ℕ) (shuffle_data : Bool) (f : ℕ → ℝ) (p : ℕ)
    (k k' : ℕ) :
    (fit c s ⟨k, f, p⟩ X y max_epochs shuffle_data).1 =
      (fit c s ⟨k', f, p⟩ X y max_epochs shuffle_data).1 := by
  unfold fit
  by_cases h : y.length ≠ X.rows
  · rw [if_pos h, if_pos h]
  · rw [if_neg h, if_neg h]
    rfl

end MLP2
